import Mathlib

/-!
Verification of the track matching engine (src/services/trackMatchingEngine.ts)
and the eval-case tooling (scripts/format-eval-export.ts).

Strings are shallowly embedded as lists of Unicode code points (`List Nat`),
mirroring JavaScript strings; `Option Str` embeds `string | null`.
Regex-based replacements from the source are embedded as recursive scans with
the same match semantics (leftmost match, greedy quantifiers, `$`-anchoring),
for inputs without newline characters.
-/

namespace MakoSync

/-- A JavaScript string, as its list of code points. -/
abbrev Str := List Nat

/-- JS `\s` (whitespace), restricted to space, tab, LF, CR. -/
def isSpc (n : Nat) : Bool := decide (n = 32 ∨ n = 9 ∨ n = 10 ∨ n = 13)

/-- JS `\d` (ASCII digit). -/
def isDigitC (n : Nat) : Bool := decide (48 ≤ n ∧ n ≤ 57)

/-- JS `\w` (ASCII letter, digit or underscore). -/
def isWordC (n : Nat) : Bool :=
  decide ((97 ≤ n ∧ n ≤ 122) ∨ (65 ≤ n ∧ n ≤ 90) ∨ (48 ≤ n ∧ n ≤ 57) ∨ n = 95)

/-- ASCII case fold of one code point, as in JS `toLowerCase` on ASCII. -/
def lowerC (n : Nat) : Nat := if 65 ≤ n ∧ n ≤ 90 then n + 32 else n

/-- `String.prototype.trim`: drop leading and trailing whitespace. -/
def trimStr (s : Str) : Str :=
  ((s.dropWhile isSpc).reverse.dropWhile isSpc).reverse

/-- Modelled from the spec: `NormalizationService.normalize`'s per-character
pipeline (NFKC unicode normalization, diacritic removal, case fold), whose
source file is not in the repository snapshot.  ASCII letters are case folded,
a representative table of precomposed Latin letters with diacritics is mapped
to the base letter, combining marks are dropped, all other code points pass
through unchanged. -/
def foldChar (n : Nat) : List Nat :=
  if n < 128 then (if 65 ≤ n ∧ n ≤ 90 then [n + 32] else [n])
  else if n ∈ [233, 232, 234, 235, 201, 200, 202, 203] then [101]
  else if n ∈ [225, 224, 226, 228, 229, 193, 192, 194, 196, 197] then [97]
  else if n ∈ [243, 242, 244, 246, 211, 210, 212, 214] then [111]
  else if n ∈ [250, 249, 251, 252, 218, 217, 219, 220] then [117]
  else if n ∈ [237, 236, 238, 239, 205, 204, 206, 207] then [105]
  else if n ∈ [241, 209] then [110]
  else if n ∈ [231, 199] then [99]
  else if 768 ≤ n ∧ n ≤ 879 then []
  else [n]

/-- Modelled from the spec: the full `NormalizationService.normalize`
(steps a-c of the normalization pipeline), applied per character. -/
def serviceNormalize (s : Str) : Str := (s.map foldChar).flatten

/-- Does `\bwww\.` followed by at least one non-space character (`\S+`) match
at the head of `s`?  Case-insensitive on the `www` part. -/
def wwwAt (s : Str) : Bool :=
  match s with
  | a :: b :: c :: d :: e :: _ =>
    lowerC a == 119 && lowerC b == 119 && lowerC c == 119 && d == 46 && !(isSpc e)
  | _ => false

/-- `\b` before a match position: start of string or previous char not `\w`. -/
def wordBoundary (prev : Option Nat) : Bool :=
  match prev with
  | none => true
  | some p => !(isWordC p)

/-- Scanner for `replace(/\bwww\.\S+/gi, '')`.  The whole match is a maximal
run of non-space characters starting at `www.`, so skip mode (`true`) drops
characters until the next space. -/
def stripUrlsAux : Bool → Option Nat → Str → Str
  | _, _, [] => []
  | true, prev, c :: rest =>
    if isSpc c then c :: stripUrlsAux false (some c) rest
    else stripUrlsAux true prev rest
  | false, prev, c :: rest =>
    if wordBoundary prev && wwwAt (c :: rest) then stripUrlsAux true prev rest
    else c :: stripUrlsAux false (some c) rest

/-- `str.replace(/\bwww\.\S+/gi, '')`. -/
def stripUrls (s : Str) : Str := stripUrlsAux false none s

/-- Does `\s+kw\.?\s+` (with the optional period only when `optDot`) match at
the head of `s`?  Case-insensitive on the keyword. -/
def clauseAt (kw : Str) (optDot : Bool) (s : Str) : Bool :=
  match s.takeWhile isSpc with
  | [] => false
  | _ :: _ =>
    let r := s.dropWhile isSpc
    if (r.take kw.length).map lowerC == kw then
      match r.drop kw.length with
      | [] => false
      | x :: r3 =>
        isSpc x || (optDot && x == 46 && (match r3 with
          | y :: _ => isSpc y
          | [] => false))
    else false

/-- `str.replace(/\s+kw\.?\s+.*$/i, '')`: cut everything from the leftmost
position where the clause pattern begins. -/
def cutClause (kw : Str) (optDot : Bool) : Str → Str
  | [] => []
  | c :: rest =>
    if clauseAt kw optDot (c :: rest) then [] else c :: cutClause kw optDot rest

/-- Keyword `feat` as code points. -/
def kwFeat : Str := [102, 101, 97, 116]

/-- Keyword `ft` as code points. -/
def kwFt : Str := [102, 116]

/-- Keyword `featuring` as code points. -/
def kwFeaturing : Str := [102, 101, 97, 116, 117, 114, 105, 110, 103]

/-- `str.replace(/\s+\d{2,3}\s*$/, '')`: strip a trailing standalone 2-3 digit
number (with the whitespace run before it), if present. -/
def stripBpm (s : Str) : Str :=
  let r := s.reverse
  let r1 := r.dropWhile isSpc
  let ds := r1.takeWhile isDigitC
  let r2 := r1.dropWhile isDigitC
  if 2 ≤ ds.length ∧ ds.length ≤ 3 ∧ r2.takeWhile isSpc ≠ [] then
    (r2.dropWhile isSpc).reverse
  else s

/-- `str.replace(/[^\w\s]/g, '')`: keep only word characters and whitespace. -/
def stripPunct (s : Str) : Str := s.filter (fun c => isWordC c || isSpc c)

/-- Split into maximal whitespace-free words; `cur` is the current word,
reversed. -/
def wordsAux : Str → Str → List Str
  | [], cur => if cur.isEmpty then [] else [cur.reverse]
  | c :: rest, cur =>
    if isSpc c then
      (if cur.isEmpty then wordsAux rest [] else cur.reverse :: wordsAux rest [])
    else wordsAux rest (c :: cur)

/-- The whitespace-separated words of a string. -/
def wordsOf (s : Str) : List Str := wordsAux s []

/-- Join words with single spaces. -/
def joinWords : List Str → Str
  | [] => []
  | [w] => w
  | w :: x :: xs => w ++ 32 :: joinWords (x :: xs)

/-- `str.replace(/\s+/g, ' ').trim()`. -/
def collapseWs (s : Str) : Str := joinWords (wordsOf s)

/-- `normalize` from trackMatchingEngine.ts: NFKC + diacritics + case fold
(via the normalization service), then strip URL-like junk, feat/ft/featuring
clauses, trailing BPM numbers and punctuation, and collapse whitespace. -/
def normalize (str : Option Str) : Str :=
  match str with
  | none => []
  | some t =>
    if t = [] then []
    else
      collapseWs (stripPunct (stripBpm
        (cutClause kwFeaturing false (cutClause kwFt true (cutClause kwFeat true
          (stripUrls (serviceNormalize t)))))))

/-- The version/mix keyword vocabulary, from the spec of
`NormalizationService.extractVersionInfo`. -/
def versionKeywords : List Str :=
  [[114, 101, 109, 105, 120], [109, 105, 120], [101, 100, 105, 116],
   [114, 101, 119, 111, 114, 107], [98, 111, 111, 116, 108, 101, 103],
   [109, 97, 115, 104, 117, 112], [118, 101, 114, 115, 105, 111, 110],
   [114, 97, 100, 105, 111], [99, 108, 117, 98],
   [101, 120, 116, 101, 110, 100, 101, 100], [118, 111, 99, 97, 108],
   [105, 110, 115, 116, 114, 117, 109, 101, 110, 116, 97, 108],
   [100, 117, 98], [111, 114, 105, 103, 105, 110, 97, 108],
   [108, 105, 118, 101], [97, 99, 111, 117, 115, 116, 105, 99],
   [117, 110, 112, 108, 117, 103, 103, 101, 100],
   [114, 101, 109, 97, 115, 116, 101, 114], [100, 101, 109, 111],
   [118, 105, 112]]

/-- Does a bracket-group body contain a version keyword as a whole word? -/
def hasVersionKeyword (g : Str) : Bool :=
  let cleaned := (g.map lowerC).map (fun c => if isWordC c then c else 32)
  (wordsOf cleaned).any (fun w => versionKeywords.contains w)

/-- Modelled from the spec: `NormalizationService.extractVersionInfo`, whose
source file is not in the repository snapshot.  Splits a title into a core and
a version descriptor: when the title ends (up to trailing whitespace) in a
parenthetical or bracket group containing a keyword from the version
vocabulary, the group is removed from the core and returned as the version
descriptor; otherwise the title is returned unchanged with an empty
descriptor. -/
def extractVersionInfo (title : Str) : Str × Str :=
  let t := trimStr title
  match t.reverse with
  | [] => (title, [])
  | closer :: rest =>
    if closer = 41 ∨ closer = 93 then
      let opener := if closer = 41 then 40 else 91
      let grpRev := rest.takeWhile (fun c => decide (c ≠ opener))
      match rest.dropWhile (fun c => decide (c ≠ opener)) with
      | [] => (title, [])
      | _ :: preRev =>
        if hasVersionKeyword grpRev.reverse then
          (trimStr preRev.reverse, grpRev.reverse)
        else (title, [])
    else (title, [])

/-- `\s+original\s+mix\s*$` / `\s+extended\s+mix\s*$`-style suffix strip:
remove a trailing two-word keyword pair preceded by whitespace. -/
def stripTrailingPair (kw1 kw2 : Str) (s : Str) : Str :=
  let r := s.reverse
  let r1 := r.dropWhile isSpc
  if (r1.take kw2.length).map lowerC = kw2.reverse then
    let r2 := r1.drop kw2.length
    if r2.takeWhile isSpc = [] then s
    else
      let r3 := r2.dropWhile isSpc
      if (r3.take kw1.length).map lowerC = kw1.reverse then
        let r4 := r3.drop kw1.length
        if r4.takeWhile isSpc ≠ [] then (r4.dropWhile isSpc).reverse else s
      else s
  else s

/-- Keyword `original` as code points. -/
def kwOriginal : Str := [111, 114, 105, 103, 105, 110, 97, 108]

/-- Keyword `extended` as code points. -/
def kwExtended : Str := [101, 120, 116, 101, 110, 100, 101, 100]

/-- Keyword `mix` as code points. -/
def kwMix : Str := [109, 105, 120]

/-- `extractCoreTitle` from trackMatchingEngine.ts: strip URL junk, take the
core from the version-info extraction, strip a trailing unparenthesized
"original mix" / "extended mix", and normalize. -/
def extractCoreTitle (title : Option Str) : Str :=
  match title with
  | none => []
  | some t =>
    if t = [] then []
    else
      let cleaned := trimStr (stripUrls t)
      let core := (extractVersionInfo cleaned).1
      let coreClean :=
        trimStr (stripTrailingPair kwExtended kwMix
          (stripTrailingPair kwOriginal kwMix core))
      normalize (some coreClean)

/-- `the ` (with trailing space) as code points. -/
def kwThe : Str := [116, 104, 101, 32]

/-- `normalizeArtist` from trackMatchingEngine.ts: full normalization, then
strip a leading `the ` prefix. -/
def normalizeArtist (artist : Option Str) : Str :=
  match artist with
  | none => []
  | some t =>
    if t = [] then []
    else
      let n := normalize (some t)
      if n.take 4 = kwThe then n.drop 4 else n

/-- One candidate-prefix attempt inside `stripArtistPrefix`: if the lowercased
title starts with the lowercased trimmed candidate followed by ` - `, return
the rest of the title, trimmed. -/
def tryStripPrefixWith (t cand : Str) : Option Str :=
  let p := trimStr (cand.map lowerC) ++ [32, 45, 32]
  if (t.map lowerC).take p.length = p then some (trimStr (t.drop p.length))
  else none

/-- `stripArtistPrefix` from trackMatchingEngine.ts: strip an embedded
`Artist - ` prefix from a title, trying the effective artist and then the raw
artist as candidates. -/
def stripArtistPrefix (title : Option Str) (artist : Option Str)
    (rawArtist : Option Str) : Str :=
  match title with
  | none => []
  | some t =>
    if t = [] then []
    else
      match artist with
      | none => t
      | some a =>
        if a = [] then t
        else
          match tryStripPrefixWith t a with
          | some res => res
          | none =>
            match rawArtist with
            | none => t
            | some ra =>
              if ra = [] then t
              else
                match tryStripPrefixWith t ra with
                | some res => res
                | none => t

/-- Helper for the Levenshtein recurrence: given `f = levenshteinDistance xs`,
compute `levenshteinDistance (x :: xs)`. -/
def levAux (f : Str → Nat) (x : Nat) : Str → Nat
  | [] => f [] + 1
  | y :: ys =>
    if x = y then f ys
    else 1 + min (f ys) (min (levAux f x ys) (f (y :: ys)))

/-- `levenshteinDistance` from trackMatchingEngine.ts.  The source fills the
classic dynamic-programming matrix whose entry `(i, j)` is the edit distance
between the length-`i` and length-`j` prefixes; this structural recursion
computes the same edit distance via the same recurrence (unit-cost insertion,
deletion and substitution). -/
def levenshteinDistance : Str → Str → Nat
  | [], ys => ys.length
  | x :: xs, ys => levAux (levenshteinDistance xs) x ys

/-- `calculateSimilarity` from trackMatchingEngine.ts, with JS numbers read as
exact rationals: `100` when both strings are empty, otherwise
`((maxLength - distance) / maxLength) * 100`, written as the equal rational
`((maxLength - distance) * 100) / maxLength` built with `Rat.divInt` so that
it evaluates by kernel reduction. -/
def calculateSimilarity (str1 str2 : Str) : ℚ :=
  let distance := levenshteinDistance str1 str2
  let maxLength := max str1.length str2.length
  if maxLength = 0 then 100
  else Rat.divInt (((maxLength : Int) - (distance : Int)) * 100) (maxLength : Int)

/-- `LocalTrack` from trackMatchingEngine.ts. -/
structure LocalTrack where
  id : Str
  title : Option Str
  artist : Option Str
  primary_artist : Option Str
  album : Option Str
  genre : Option Str
  file_path : Str
deriving DecidableEq

/-- `SpotifyTrack` from trackMatchingEngine.ts. -/
structure SpotifyTrack where
  id : Str
  title : Str
  artist : Str
  primary_artist : Option Str
  album : Option Str
  genre : Option Str
  super_genre : Option Str
deriving DecidableEq

/-- An entry of `LocalIndex.normalized`. -/
structure NormalizedLocal where
  track : LocalTrack
  title : Str
  coreTitle : Str
  artist : Str
deriving DecidableEq

/-- `LocalIndex` from trackMatchingEngine.ts.  The JS `Set`s are embedded as
the lists of keys they were built from; `Set.has` is list membership. -/
structure LocalIndex where
  exactSet : List Str
  coreSet : List Str
  normalized : List NormalizedLocal
deriving DecidableEq

/-- `MatchResult` from trackMatchingEngine.ts; absent optional fields are
`none`. -/
structure MatchResult where
  matched : Bool
  tier : Option Nat
  spotifyTrack : SpotifyTrack
  matchedLocalTrack : Option LocalTrack := none
  similarity : Option ℚ := none
  normalizedSpotifyTitle : Str
  normalizedSpotifyArtist : Str
  normalizedLocalTitle : Option Str := none
  normalizedLocalArtist : Option Str := none
deriving DecidableEq

/-- `FUZZY_MATCH_THRESHOLD` from trackMatchingEngine.ts. -/
def FUZZY_MATCH_THRESHOLD : ℚ := 85

/-- JS `track.primary_artist || track.artist`: the primary artist unless it is
null or empty (falsy), in which case the artist field. -/
def effectiveArtist (track : LocalTrack) : Option Str :=
  match track.primary_artist with
  | some p => if p = [] then track.artist else some p
  | none => track.artist

/-- JS `spotifyTrack.primary_artist || spotifyTrack.artist` (the artist field
of a streaming track is a non-null string). -/
def effectiveSpotifyArtist (s : SpotifyTrack) : Str :=
  match s.primary_artist with
  | some p => if p = [] then s.artist else p
  | none => s.artist

/-- The per-track record built inside `buildLocalIndex`. -/
def mkNormalizedLocal (track : LocalTrack) : NormalizedLocal :=
  let artist := effectiveArtist track
  let title := stripArtistPrefix track.title artist track.artist
  { track := track
    title := normalize (some title)
    coreTitle := extractCoreTitle (some title)
    artist := normalizeArtist artist }

/-- The exact key `normalize(title)_normalizeArtist(artist)` a local track
contributes to `LocalIndex.exactSet` (`95` is `_`). -/
def exactKeyOf (track : LocalTrack) : Str :=
  let artist := effectiveArtist track
  let title := stripArtistPrefix track.title artist track.artist
  normalize (some title) ++ 95 :: normalizeArtist artist

/-- The core key `extractCoreTitle(title)_normalizeArtist(artist)` a local
track contributes to `LocalIndex.coreSet`. -/
def coreKeyOf (track : LocalTrack) : Str :=
  let artist := effectiveArtist track
  let title := stripArtistPrefix track.title artist track.artist
  extractCoreTitle (some title) ++ 95 :: normalizeArtist artist

/-- `buildLocalIndex` from trackMatchingEngine.ts. -/
def buildLocalIndex (localTracks : List LocalTrack) : LocalIndex :=
  { exactSet := localTracks.map exactKeyOf
    coreSet := localTracks.map coreKeyOf
    normalized := localTracks.map mkNormalizedLocal }

/-- The tier-2b predicate: same normalized artist and one side's full title
equals the other side's core title. -/
def crossTierPred (spotifyTitle spotifyCoreTitle spotifyArtist : Str)
    (l : NormalizedLocal) : Bool :=
  l.artist == spotifyArtist &&
    (spotifyTitle == l.coreTitle || spotifyCoreTitle == l.title)

/-- The tier-3 predicate: same normalized artist and full-title or core-title
similarity at least the fuzzy threshold. -/
def fuzzyPred (spotifyTitle spotifyCoreTitle spotifyArtist : Str)
    (l : NormalizedLocal) : Bool :=
  l.artist == spotifyArtist &&
    (decide (FUZZY_MATCH_THRESHOLD ≤ calculateSimilarity l.title spotifyTitle) ||
     decide (FUZZY_MATCH_THRESHOLD ≤ calculateSimilarity l.coreTitle spotifyCoreTitle))

/-- `matchTrack` from trackMatchingEngine.ts: the tiered cascade. -/
def matchTrack (spotifyTrack : SpotifyTrack) (localIndex : LocalIndex) :
    MatchResult :=
  let spotifyTitle := normalize (some spotifyTrack.title)
  let spotifyCoreTitle := extractCoreTitle (some spotifyTrack.title)
  let spotifyArtist := normalizeArtist (some (effectiveSpotifyArtist spotifyTrack))
  let base : MatchResult :=
    { matched := false
      tier := none
      spotifyTrack := spotifyTrack
      normalizedSpotifyTitle := spotifyTitle
      normalizedSpotifyArtist := spotifyArtist }
  if (spotifyTitle ++ 95 :: spotifyArtist) ∈ localIndex.exactSet then
    { base with matched := true, tier := some 1 }
  else if (spotifyCoreTitle ++ 95 :: spotifyArtist) ∈ localIndex.coreSet then
    { base with matched := true, tier := some 2 }
  else
    match localIndex.normalized.find?
        (crossTierPred spotifyTitle spotifyCoreTitle spotifyArtist) with
    | some l =>
      { base with matched := true, tier := some 2, matchedLocalTrack := some l.track }
    | none =>
      match localIndex.normalized.find?
          (fuzzyPred spotifyTitle spotifyCoreTitle spotifyArtist) with
      | some l =>
        { base with
            matched := true
            tier := some 3
            matchedLocalTrack := some l.track
            similarity := some (max (calculateSimilarity l.title spotifyTitle)
              (calculateSimilarity l.coreTitle spotifyCoreTitle))
            normalizedLocalTitle := some l.title
            normalizedLocalArtist := some l.artist }
      | none => base

/-- `findMissingTracksPure` from trackMatchingEngine.ts. -/
def findMissingTracksPure (spotifyTracks : List SpotifyTrack)
    (localTracks : List LocalTrack) : List MatchResult :=
  let localIndex := buildLocalIndex localTracks
  spotifyTracks.map (fun st => matchTrack st localIndex)

/-- One row of `candidate_local_matches` in the raw export read by
scripts/format-eval-export.ts. -/
structure CandidateLocalMatch where
  spotify_id : Str
  local_id : Str
  local_title : Option Str
  local_artist : Option Str
  local_primary_artist : Option Str
  local_album : Option Str
  local_genre : Option Str
  local_file_path : Str
deriving DecidableEq

/-- `EvalCase` from the eval fixture format.  The verdict is the string
`true-missing` or `false-negative`; free-text ids and notes are plain
strings. -/
structure EvalCase where
  id : Str
  spotifyTrack : SpotifyTrack
  expectedLocalMatch : Option LocalTrack
  verdict : Str
  failureCategory : Option Str
  notes : Str
  superGenre : Option Str
deriving DecidableEq

/-- The string `true-missing` as code points. -/
def trueMissingV : Str := [116, 114, 117, 101, 45, 109, 105, 115, 115, 105, 110, 103]

/-- The string `false-negative` as code points. -/
def falseNegativeV : Str := [102, 97, 108, 115, 101, 45, 110, 101, 103, 97, 116, 105, 118, 101]

/-- The string `unknown` as code points. -/
def unknownV : Str := [117, 110, 107, 110, 111, 119, 110]

/-- The local-track record built from a candidate row in
scripts/format-eval-export.ts. -/
def candidateToLocal (c : CandidateLocalMatch) : LocalTrack :=
  { id := c.local_id
    title := c.local_title
    artist := c.local_artist
    primary_artist := c.local_primary_artist
    album := c.local_album
    genre := c.local_genre
    file_path := c.local_file_path }

/-- The per-track case constructor inside `main` of
scripts/format-eval-export.ts: with candidate local matches the case is a
`false-negative` whose expected match is the first candidate, without
candidates it is a `true-missing` with no expected match.  The generated id
and free-text notes are passed in as parameters (their template content is not
observable by any claim). -/
def formatCase (caseId : Str) (st : SpotifyTrack)
    (candidates : List CandidateLocalMatch) (notes : Str)
    (superGenre : Option Str) : EvalCase :=
  match candidates with
  | [] =>
    { id := caseId
      spotifyTrack := st
      expectedLocalMatch := none
      verdict := trueMissingV
      failureCategory := none
      notes := notes
      superGenre := superGenre }
  | c :: _ =>
    { id := caseId
      spotifyTrack := st
      expectedLocalMatch := some (candidateToLocal c)
      verdict := falseNegativeV
      failureCategory := some unknownV
      notes := notes
      superGenre := superGenre }

/-- One row of the CSV merged back by the csv-to-eval step of
scripts/format-eval-export.ts; `none` embeds a missing column. -/
structure CsvRow where
  verdict : Option Str
  failureCategory : Option Str
  notes : Option Str
deriving DecidableEq

/-- `VALID_VERDICTS` from scripts/format-eval-export.ts. -/
def VALID_VERDICTS : List Str := [trueMissingV, falseNegativeV]

/-- The final statement of the csv-to-eval merge loop body in
scripts/format-eval-export.ts: if the verdict is `true-missing` while an
expected local match is still present, clear the match and the failure
category. -/
def clearTrueMissing (c3 : EvalCase) : EvalCase :=
  if c3.verdict = trueMissingV ∧ c3.expectedLocalMatch ≠ none then
    { c3 with expectedLocalMatch := none, failureCategory := none }
  else c3

/-- The per-case body of the csv-to-eval merge loop in
scripts/format-eval-export.ts: apply the row's verdict (only when non-empty,
different, and valid), failure category and notes edits, then clear the
expected local match and failure category whenever the resulting verdict is
`true-missing` but a local match is still present. -/
def applyCsvRow (row : CsvRow) (c0 : EvalCase) : EvalCase :=
  let c1 :=
    match row.verdict with
    | some v0 =>
      let v := trimStr v0
      if v ≠ [] ∧ v ≠ c0.verdict ∧ v ∈ VALID_VERDICTS then
        { c0 with verdict := v }
      else c0
    | none => c0
  let newCat := match row.failureCategory with
    | some s => trimStr s
    | none => []
  let oldCat := match c1.failureCategory with
    | some s => s
    | none => []
  let c2 :=
    if newCat ≠ oldCat then
      { c1 with failureCategory := if newCat = [] then none else some newCat }
    else c1
  let newNotes := match row.notes with
    | some s => s
    | none => []
  let c3 := if newNotes ≠ c2.notes then { c2 with notes := newNotes } else c2
  clearTrueMissing c3

/-- The local track `Song (Radio Edit)` by `X` of the tier-monotonicity
counterexample. -/
def c2Local : LocalTrack :=
  { id := [49]
    title := some [83, 111, 110, 103, 32, 40, 82, 97, 100, 105, 111, 32, 69, 100, 105, 116, 41]
    artist := some [88]
    primary_artist := none
    album := none
    genre := none
    file_path := [] }

/-- The streaming track `Song Radio Edit` by `X` of the tier-monotonicity
counterexample. -/
def c2Spotify : SpotifyTrack :=
  { id := [50]
    title := [83, 111, 110, 103, 32, 82, 97, 100, 105, 111, 32, 69, 100, 105, 116]
    artist := [88]
    primary_artist := none
    album := none
    genre := none
    super_genre := none }

/-- A local track titled `abcdefg` with null artist fields. -/
def c8Local : LocalTrack :=
  { id := [108]
    title := some [97, 98, 99, 100, 101, 102, 103]
    artist := none
    primary_artist := none
    album := none
    genre := none
    file_path := [] }

/-- A streaming track titled `abcdefh` with empty artist and null primary
artist (a streaming track's artist field is typed non-null, so the empty
string is its degenerate form). -/
def c8Spotify : SpotifyTrack :=
  { id := [115]
    title := [97, 98, 99, 100, 101, 102, 104]
    artist := []
    primary_artist := none
    album := none
    genre := none
    super_genre := none }

/-- A character that can appear in `normalize` output: a non-uppercase word
character, or a single space. -/
def goodC (x : Nat) : Prop := (isWordC x = true ∧ ¬(65 ≤ x ∧ x ≤ 90)) ∨ x = 32

/-! ### Lemmas about the Levenshtein distance -/

theorem lev_nil_right : ∀ xs : Str, levenshteinDistance xs [] = xs.length := by
  intro xs
  induction xs with
  | nil => rfl
  | cons x xs ih =>
    show levAux (levenshteinDistance xs) x [] = _
    simp [levAux, ih]

theorem lev_cons_cons (x y : Nat) (xs ys : Str) :
    levenshteinDistance (x :: xs) (y :: ys) =
      if x = y then levenshteinDistance xs ys
      else 1 + min (levenshteinDistance xs ys)
        (min (levenshteinDistance (x :: xs) ys) (levenshteinDistance xs (y :: ys))) :=
  rfl

theorem lev_symm : ∀ xs ys : Str,
    levenshteinDistance xs ys = levenshteinDistance ys xs := by
  intro xs
  induction xs with
  | nil =>
    intro ys
    simp [levenshteinDistance, lev_nil_right]
  | cons x xs ihx =>
    intro ys
    induction ys with
    | nil => simp [levenshteinDistance, lev_nil_right, levAux, lev_nil_right xs]
    | cons y ys ihy =>
      rw [lev_cons_cons, lev_cons_cons]
      rw [ihx ys, ihx (y :: ys), ihy]
      rcases eq_or_ne x y with h | h
      · simp [h]
      · rw [if_neg h, if_neg (Ne.symm h)]
        omega

theorem lev_self : ∀ xs : Str, levenshteinDistance xs xs = 0 := by
  intro xs
  induction xs with
  | nil => rfl
  | cons x xs ih => rw [lev_cons_cons, if_pos rfl, ih]

theorem lev_le_max : ∀ xs ys : Str,
    levenshteinDistance xs ys ≤ max xs.length ys.length := by
  intro xs
  induction xs with
  | nil =>
    intro ys
    simp [levenshteinDistance]
  | cons x xs ihx =>
    intro ys
    induction ys with
    | nil =>
      rw [lev_nil_right]
      simp
    | cons y ys ihy =>
      rw [lev_cons_cons]
      have h1 := ihx ys
      have h2 := ihx (y :: ys)
      have h3 := ihy
      simp only [List.length_cons] at *
      rcases eq_or_ne x y with h | h
      · rw [if_pos h]; omega
      · rw [if_neg h]; omega

/-- C10: the similarity scorer is symmetric — the Levenshtein distance and
hence `calculateSimilarity` are invariant under swapping the two strings. -/
theorem similarity_symm (a b : Str) :
    levenshteinDistance a b = levenshteinDistance b a ∧
      calculateSimilarity a b = calculateSimilarity b a := by
  refine ⟨lev_symm a b, ?_⟩
  unfold calculateSimilarity
  rw [lev_symm a b, Nat.max_comm a.length b.length]

/-- C5: `calculateSimilarity` is bounded by `[0, 100]`, equals `100` on any
non-empty string compared with itself and on two empty strings, and otherwise
equals `100 * (maxLen - distance) / maxLen`. -/
theorem similarity_bounds (a b : Str) :
    0 ≤ calculateSimilarity a b ∧ calculateSimilarity a b ≤ 100 ∧
      (a ≠ [] → calculateSimilarity a a = 100) ∧
      calculateSimilarity ([] : Str) ([] : Str) = 100 ∧
      (max a.length b.length ≠ 0 →
        calculateSimilarity a b =
          100 * ((max a.length b.length : ℚ) - (levenshteinDistance a b : ℚ)) /
            (max a.length b.length : ℚ)) := by
  have hle := lev_le_max a b
  have hform : max a.length b.length ≠ 0 →
      calculateSimilarity a b =
        100 * ((max a.length b.length : ℚ) - (levenshteinDistance a b : ℚ)) /
          (max a.length b.length : ℚ) := by
    intro hm
    unfold calculateSimilarity
    rw [if_neg hm, Rat.divInt_eq_div]
    push_cast
    ring
  have hself : a ≠ [] → calculateSimilarity a a = 100 := by
    intro ha
    have hm : a.length ≠ 0 := by
      simpa [List.length_eq_zero] using ha
    have hmq : (a.length : ℚ) ≠ 0 := Nat.cast_ne_zero.mpr hm
    unfold calculateSimilarity
    rw [lev_self]
    simp only [Nat.max_self]
    rw [if_neg hm, Rat.divInt_eq_div]
    push_cast
    field_simp
  refine ⟨?_, ?_, hself, by unfold calculateSimilarity; rfl, hform⟩
  · rcases Nat.eq_zero_or_pos (max a.length b.length) with hm | hm
    · unfold calculateSimilarity
      rw [if_pos hm]
      norm_num
    · rw [hform hm.ne.symm]
      have hdq : (levenshteinDistance a b : ℚ) ≤ (max a.length b.length : ℚ) := by
        exact_mod_cast hle
      have hmq : (0 : ℚ) < (max a.length b.length : ℚ) := by exact_mod_cast hm
      apply div_nonneg _ hmq.le
      nlinarith
  · rcases Nat.eq_zero_or_pos (max a.length b.length) with hm | hm
    · unfold calculateSimilarity
      rw [if_pos hm]
    · rw [hform hm.ne.symm]
      have hdq : (0 : ℚ) ≤ (levenshteinDistance a b : ℚ) := by positivity
      have hmq : (0 : ℚ) < (max a.length b.length : ℚ) := by exact_mod_cast hm
      rw [div_le_iff₀ hmq]
      nlinarith

/-! ### Structure lemmas about `matchTrack` -/

theorem matchTrack_spotifyTrack (s : SpotifyTrack) (I : LocalIndex) :
    (matchTrack s I).spotifyTrack = s := by
  simp only [matchTrack]
  split_ifs <;> first
  | rfl
  | (rcases hf : List.find? (crossTierPred (normalize (some s.title))
        (extractCoreTitle (some s.title))
        (normalizeArtist (some (effectiveSpotifyArtist s)))) I.normalized with _ | nl <;>
      simp only [hf] <;>
      first
      | rfl
      | (rcases hg : List.find? (fuzzyPred (normalize (some s.title))
            (extractCoreTitle (some s.title))
            (normalizeArtist (some (effectiveSpotifyArtist s)))) I.normalized with _ | nl2 <;>
          simp only [hg] <;> rfl))

theorem matchTrack_normalizedSpotifyArtist (s : SpotifyTrack) (I : LocalIndex) :
    (matchTrack s I).normalizedSpotifyArtist =
      normalizeArtist (some (effectiveSpotifyArtist s)) := by
  simp only [matchTrack]
  split_ifs <;> first
  | rfl
  | (rcases hf : List.find? (crossTierPred (normalize (some s.title))
        (extractCoreTitle (some s.title))
        (normalizeArtist (some (effectiveSpotifyArtist s)))) I.normalized with _ | nl <;>
      simp only [hf] <;>
      first
      | rfl
      | (rcases hg : List.find? (fuzzyPred (normalize (some s.title))
            (extractCoreTitle (some s.title))
            (normalizeArtist (some (effectiveSpotifyArtist s)))) I.normalized with _ | nl2 <;>
          simp only [hg] <;> rfl))

/-- Inversion: whenever `matchTrack` reports a specific local track, that
track came from an index record whose normalized artist equals the streaming
track's normalized artist, and the tier is 2 (cross-tier) or 3 (fuzzy). -/
theorem matchTrack_inv (s : SpotifyTrack) (I : LocalIndex) :
    (matchTrack s I).matchedLocalTrack = none ∨
      ∃ nl, nl ∈ I.normalized ∧
        (matchTrack s I).matchedLocalTrack = some nl.track ∧
        nl.artist = normalizeArtist (some (effectiveSpotifyArtist s)) ∧
        ((matchTrack s I).tier = some 2 ∨ (matchTrack s I).tier = some 3) := by
  simp only [matchTrack]
  split_ifs
  · left; rfl
  · left; rfl
  · rcases hf : List.find? (crossTierPred (normalize (some s.title))
        (extractCoreTitle (some s.title))
        (normalizeArtist (some (effectiveSpotifyArtist s)))) I.normalized with _ | nl
    · simp only [hf]
      rcases hg : List.find? (fuzzyPred (normalize (some s.title))
          (extractCoreTitle (some s.title))
          (normalizeArtist (some (effectiveSpotifyArtist s)))) I.normalized with _ | nl2
      · left; rfl
      · simp only [hg]
        right
        refine ⟨nl2, List.mem_of_find?_eq_some hg, rfl, ?_, Or.inr trivial⟩
        have hp := List.find?_some hg
        simp only [fuzzyPred, Bool.and_eq_true, beq_iff_eq] at hp
        exact hp.1
    · simp only [hf]
      right
      refine ⟨nl, List.mem_of_find?_eq_some hf, rfl, ?_, Or.inl trivial⟩
      have hp := List.find?_some hf
      simp only [crossTierPred, Bool.and_eq_true, beq_iff_eq] at hp
      exact hp.1

/-- C1: `matchTrack` is a strict tiered cascade, characterized in all five
outcomes.  If the exact key is in the exact set the result is a tier-1 match
carrying no local track and no similarity; the core-set tier fires only when
the exact tier failed; the cross-tier (2b) scan fires only when both key sets
missed, returning tier 2 with the first matching record's track and no
similarity; the fuzzy tier fires only when the cross-tier scan also found
nothing, returning tier 3 with the first sufficient record, its similarity and
its normalized strings; and when no tier matches the result is unmatched with
no tier. -/
theorem matchTrack_tiered_cascade (s : SpotifyTrack) (I : LocalIndex) :
    ((normalize (some s.title) ++ 95 ::
        normalizeArtist (some (effectiveSpotifyArtist s))) ∈ I.exactSet →
      matchTrack s I =
        { matched := true
          tier := some 1
          spotifyTrack := s
          normalizedSpotifyTitle := normalize (some s.title)
          normalizedSpotifyArtist := normalizeArtist (some (effectiveSpotifyArtist s)) }) ∧
    ((normalize (some s.title) ++ 95 ::
        normalizeArtist (some (effectiveSpotifyArtist s))) ∉ I.exactSet →
      (extractCoreTitle (some s.title) ++ 95 ::
        normalizeArtist (some (effectiveSpotifyArtist s))) ∈ I.coreSet →
      matchTrack s I =
        { matched := true
          tier := some 2
          spotifyTrack := s
          normalizedSpotifyTitle := normalize (some s.title)
          normalizedSpotifyArtist := normalizeArtist (some (effectiveSpotifyArtist s)) }) ∧
    ((normalize (some s.title) ++ 95 ::
        normalizeArtist (some (effectiveSpotifyArtist s))) ∉ I.exactSet →
      (extractCoreTitle (some s.title) ++ 95 ::
        normalizeArtist (some (effectiveSpotifyArtist s))) ∉ I.coreSet →
      ∀ nl : NormalizedLocal,
      List.find? (crossTierPred (normalize (some s.title))
        (extractCoreTitle (some s.title))
        (normalizeArtist (some (effectiveSpotifyArtist s)))) I.normalized = some nl →
      matchTrack s I =
        { matched := true
          tier := some 2
          spotifyTrack := s
          matchedLocalTrack := some nl.track
          normalizedSpotifyTitle := normalize (some s.title)
          normalizedSpotifyArtist := normalizeArtist (some (effectiveSpotifyArtist s)) }) ∧
    ((normalize (some s.title) ++ 95 ::
        normalizeArtist (some (effectiveSpotifyArtist s))) ∉ I.exactSet →
      (extractCoreTitle (some s.title) ++ 95 ::
        normalizeArtist (some (effectiveSpotifyArtist s))) ∉ I.coreSet →
      List.find? (crossTierPred (normalize (some s.title))
        (extractCoreTitle (some s.title))
        (normalizeArtist (some (effectiveSpotifyArtist s)))) I.normalized = none →
      ∀ nl : NormalizedLocal,
      List.find? (fuzzyPred (normalize (some s.title))
        (extractCoreTitle (some s.title))
        (normalizeArtist (some (effectiveSpotifyArtist s)))) I.normalized = some nl →
      matchTrack s I =
        { matched := true
          tier := some 3
          spotifyTrack := s
          matchedLocalTrack := some nl.track
          similarity := some (max
            (calculateSimilarity nl.title (normalize (some s.title)))
            (calculateSimilarity nl.coreTitle (extractCoreTitle (some s.title))))
          normalizedSpotifyTitle := normalize (some s.title)
          normalizedSpotifyArtist := normalizeArtist (some (effectiveSpotifyArtist s))
          normalizedLocalTitle := some nl.title
          normalizedLocalArtist := some nl.artist }) ∧
    ((normalize (some s.title) ++ 95 ::
        normalizeArtist (some (effectiveSpotifyArtist s))) ∉ I.exactSet →
      (extractCoreTitle (some s.title) ++ 95 ::
        normalizeArtist (some (effectiveSpotifyArtist s))) ∉ I.coreSet →
      List.find? (crossTierPred (normalize (some s.title))
        (extractCoreTitle (some s.title))
        (normalizeArtist (some (effectiveSpotifyArtist s)))) I.normalized = none →
      List.find? (fuzzyPred (normalize (some s.title))
        (extractCoreTitle (some s.title))
        (normalizeArtist (some (effectiveSpotifyArtist s)))) I.normalized = none →
      matchTrack s I =
        { matched := false
          tier := none
          spotifyTrack := s
          normalizedSpotifyTitle := normalize (some s.title)
          normalizedSpotifyArtist := normalizeArtist (some (effectiveSpotifyArtist s)) }) := by
  refine ⟨?_, ?_, ?_, ?_, ?_⟩
  · intro h1
    simp only [matchTrack, if_pos h1]
  · intro h1 h2
    simp only [matchTrack, if_neg h1, if_pos h2]
  · intro h1 h2 nl h3
    simp only [matchTrack, if_neg h1, if_neg h2, h3]
  · intro h1 h2 h3 nl h4
    simp only [matchTrack, if_neg h1, if_neg h2, h3, h4]
  · intro h1 h2 h3 h4
    simp only [matchTrack, if_neg h1, if_neg h2, h3, h4]

/-- C4: the artist gate — whenever `matchTrack` over an index built by
`buildLocalIndex` identifies a matched local track (tier 2b or tier 3), the
matched track's normalized effective artist equals the streaming track's
normalized artist. -/
theorem matchTrack_artist_gate (s : SpotifyTrack) (lts : List LocalTrack)
    (l : LocalTrack)
    (h : (matchTrack s (buildLocalIndex lts)).matchedLocalTrack = some l) :
    ((matchTrack s (buildLocalIndex lts)).tier = some 2 ∨
      (matchTrack s (buildLocalIndex lts)).tier = some 3) ∧
      normalizeArtist (effectiveArtist l) =
        (matchTrack s (buildLocalIndex lts)).normalizedSpotifyArtist := by
  rcases matchTrack_inv s (buildLocalIndex lts) with h0 | ⟨nl, hmem, heq, hart, htier⟩
  · rw [h0] at h
    cases h
  · refine ⟨htier, ?_⟩
    rw [heq] at h
    have hl : nl.track = l := by injection h
    simp only [buildLocalIndex, List.mem_map] at hmem
    obtain ⟨t, _, rfl⟩ := hmem
    rw [matchTrack_normalizedSpotifyArtist, ← hart, ← hl]
    simp [mkNormalizedLocal]

/-- C6: batch matching is the per-track matcher mapped over one shared index:
one result per input streaming track, in input order, each carrying its input
track. -/
theorem findMissingTracks_map (sp : List SpotifyTrack) (lt : List LocalTrack) :
    findMissingTracksPure sp lt =
      sp.map (fun st => matchTrack st (buildLocalIndex lt)) ∧
    (findMissingTracksPure sp lt).length = sp.length ∧
    ∀ i : Nat, ((findMissingTracksPure sp lt)[i]?).map (fun r => r.spotifyTrack) =
      sp[i]? := by
  refine ⟨rfl, by simp [findMissingTracksPure], ?_⟩
  intro i
  simp only [findMissingTracksPure, List.getElem?_map]
  rcases sp[i]? with _ | st
  · rfl
  · simp [matchTrack_spotifyTrack]

/-- C7: totality of the core on degenerate inputs — absent or empty strings
normalize to the empty string, a local track with all-null text fields indexes
to empty normalized fields, and `matchTrack` returns an ordinary unmatched
result against an empty index. -/
theorem core_totality :
    normalize none = [] ∧ normalize (some []) = [] ∧
    extractCoreTitle none = [] ∧ extractCoreTitle (some []) = [] ∧
    normalizeArtist none = [] ∧ normalizeArtist (some []) = [] ∧
    (∀ t : LocalTrack, t.title = none → t.artist = none → t.primary_artist = none →
      mkNormalizedLocal t = { track := t, title := [], coreTitle := [], artist := [] }) ∧
    (∀ (s : SpotifyTrack) (I : LocalIndex), (matchTrack s I).spotifyTrack = s) ∧
    (∀ s : SpotifyTrack, matchTrack s (buildLocalIndex []) =
      { matched := false
        tier := none
        spotifyTrack := s
        normalizedSpotifyTitle := normalize (some s.title)
        normalizedSpotifyArtist := normalizeArtist (some (effectiveSpotifyArtist s)) }) := by
  refine ⟨rfl, rfl, rfl, rfl, rfl, rfl, ?_, matchTrack_spotifyTrack, ?_⟩
  · intro t ht ha hp
    simp [mkNormalizedLocal, effectiveArtist, ht, ha, hp, stripArtistPrefix,
      normalize, extractCoreTitle, normalizeArtist]
  · intro s
    simp [matchTrack, buildLocalIndex]

/-! ### Tier monotonicity (C2) -/



/-- C2 fails on the code: the pair `Song Radio Edit` / `Song (Radio Edit)`
(same artist) matches at tier 1 — their exact keys are equal, punctuation
stripping makes the normalized titles coincide — but the tier-2 core keys
differ, because version extraction strips the parenthesized `(Radio Edit)`
from one side only. -/
theorem tier_monotonicity_counterexample :
    (matchTrack c2Spotify (buildLocalIndex [c2Local])).tier = some 1 ∧
    normalize (some c2Spotify.title) ++ 95 ::
      normalizeArtist (some (effectiveSpotifyArtist c2Spotify)) = exactKeyOf c2Local ∧
    extractCoreTitle (some c2Spotify.title) ++ 95 ::
      normalizeArtist (some (effectiveSpotifyArtist c2Spotify)) ≠ coreKeyOf c2Local := by
  decide

/-- C2 amended: tier-1 key equality implies tier-2 key equality for pairs
whose effective title strings coincide (core extraction is a function of the
raw title, not of the normalized title, so the implication holds when the
raw effective titles agree). -/
theorem tier_monotonicity_amended (s : SpotifyTrack) (l : LocalTrack)
    (ht : stripArtistPrefix l.title (effectiveArtist l) l.artist = s.title)
    (hk : normalize (some s.title) ++ 95 ::
      normalizeArtist (some (effectiveSpotifyArtist s)) = exactKeyOf l) :
    extractCoreTitle (some s.title) ++ 95 ::
      normalizeArtist (some (effectiveSpotifyArtist s)) = coreKeyOf l := by
  simp only [exactKeyOf] at hk
  simp only [coreKeyOf]
  rw [ht] at hk ⊢
  have h2 : (95 : Nat) :: normalizeArtist (some (effectiveSpotifyArtist s)) =
      95 :: normalizeArtist (effectiveArtist l) := List.append_cancel_left hk
  have h3 : normalizeArtist (some (effectiveSpotifyArtist s)) =
      normalizeArtist (effectiveArtist l) := by injection h2
  rw [h3]

/-! ### Empty-artist wildcard (C8) -/



/-- C8: the empty-artist wildcard.  When both sides normalize to an empty
artist the tier-2b/3 artist-equality gate is satisfied trivially, and for the
concrete pair `abcdefg` / `abcdefh` (titles 6/7 similar, i.e. about 85.7%)
`matchTrack` returns a matched tier-3 result. -/
theorem empty_artist_wildcard :
    (∀ (nl : NormalizedLocal) (sA : Str), nl.artist = [] → sA = [] →
      (nl.artist == sA) = true) ∧
    c8Local.artist = none ∧ c8Local.primary_artist = none ∧
    c8Spotify.primary_artist = none ∧ c8Spotify.artist = [] ∧
    normalizeArtist (some (effectiveSpotifyArtist c8Spotify)) = [] ∧
    (mkNormalizedLocal c8Local).artist = [] ∧
    FUZZY_MATCH_THRESHOLD ≤
      calculateSimilarity (mkNormalizedLocal c8Local).title
        (normalize (some c8Spotify.title)) ∧
    (matchTrack c8Spotify (buildLocalIndex [c8Local])).matched = true ∧
    (matchTrack c8Spotify (buildLocalIndex [c8Local])).tier = some 3 ∧
    (matchTrack c8Spotify (buildLocalIndex [c8Local])).matchedLocalTrack = some c8Local := by
  refine ⟨?_, by decide⟩
  intro nl sA h1 h2
  rw [h1, h2]
  rfl

/-- Witness for the universal gate conjunct of `empty_artist_wildcard`,
applied at the index record that `buildLocalIndex [c8Local]` produces. -/
theorem empty_artist_wildcard_witness :
    ((mkNormalizedLocal c8Local).artist == ([] : Str)) = true :=
  empty_artist_wildcard.1 (mkNormalizedLocal c8Local) [] (by decide) rfl

/-! ### Eval-case verdict invariant (C9) -/

/-- C9: the export formatter establishes the verdict invariant — a case is
`true-missing` exactly when it has no expected local match, and candidate
cases are `false-negative` with an expected match — and the CSV merge step
re-establishes it, leaving no case that is `true-missing` with a non-null
expected match. -/
theorem evalCase_verdict_invariant :
    (∀ (caseId : Str) (st : SpotifyTrack) (cands : List CandidateLocalMatch)
        (notes : Str) (sg : Option Str),
      ((formatCase caseId st cands notes sg).verdict = trueMissingV ↔
        (formatCase caseId st cands notes sg).expectedLocalMatch = none) ∧
      (cands ≠ [] →
        (formatCase caseId st cands notes sg).verdict = falseNegativeV ∧
        (formatCase caseId st cands notes sg).expectedLocalMatch ≠ none)) ∧
    (∀ (row : CsvRow) (c : EvalCase),
      (applyCsvRow row c).verdict = trueMissingV →
      (applyCsvRow row c).expectedLocalMatch = none) := by
  constructor
  · intro caseId st cands notes sg
    rcases cands with _ | ⟨c, cs⟩
    · simp [formatCase]
    · constructor
      · simp only [formatCase]
        constructor
        · intro h
          exact absurd h (by decide)
        · intro h
          cases h
      · intro _
        simp [formatCase]
  · intro row c
    have hgen : ∀ x : EvalCase, (clearTrueMissing x).verdict = trueMissingV →
        (clearTrueMissing x).expectedLocalMatch = none := by
      intro x
      unfold clearTrueMissing
      split_ifs with hc
      · intro _
        rfl
      · intro hv
        rcases not_and_or.mp hc with h | h
        · exact absurd hv h
        · exact not_ne_iff.mp h
    exact hgen _

/-- Witness for `evalCase_verdict_invariant`: merging an empty CSV row into a
`true-missing` case that wrongly carries an expected match clears the
match. -/
theorem evalCase_verdict_invariant_witness :
    (applyCsvRow ⟨none, none, none⟩
      ⟨[], c8Spotify, some c8Local, trueMissingV, none, [], none⟩).expectedLocalMatch =
      none :=
  evalCase_verdict_invariant.2 ⟨none, none, none⟩
    ⟨[], c8Spotify, some c8Local, trueMissingV, none, [], none⟩ (by decide)

/-! ### Idempotence of `normalize` (C3) -/

/-- C3 fails on the code: for the string `a 11 22` one pass of `normalize`
strips only the final trailing number (` 22`), producing `a 11`, and a second
pass strips ` 11` as well, so `normalize` is not idempotent. -/
theorem normalize_idempotence_counterexample :
    normalize (some [97, 32, 49, 49, 32, 50, 50]) = [97, 32, 49, 49] ∧
    normalize (some (normalize (some [97, 32, 49, 49, 32, 50, 50]))) = [97] ∧
    normalize (some (normalize (some [97, 32, 49, 49, 32, 50, 50]))) ≠
      normalize (some [97, 32, 49, 49, 32, 50, 50]) := by
  decide

/-! ### Witnesses -/

/-- Witness for `matchTrack_tiered_cascade`: the exact tier fires on the
`Song Radio Edit` / `Song (Radio Edit)` pair, with the tier-1 result
record. -/
theorem matchTrack_tiered_cascade_witness :
    matchTrack c2Spotify (buildLocalIndex [c2Local]) =
      { matched := true
        tier := some 1
        spotifyTrack := c2Spotify
        normalizedSpotifyTitle := normalize (some c2Spotify.title)
        normalizedSpotifyArtist :=
          normalizeArtist (some (effectiveSpotifyArtist c2Spotify)) } :=
  (matchTrack_tiered_cascade c2Spotify (buildLocalIndex [c2Local])).1 (by decide)

/-- Witness for `tier_monotonicity_amended` at a pair with identical raw
titles (`Song` by `X` on both sides). -/
theorem tier_monotonicity_amended_witness :
    extractCoreTitle (some ([83, 111, 110, 103] : Str)) ++ 95 ::
      normalizeArtist (some (effectiveSpotifyArtist
        { id := [50]
          title := [83, 111, 110, 103]
          artist := [88]
          primary_artist := none
          album := none
          genre := none
          super_genre := none })) =
      coreKeyOf
        { id := [49]
          title := some [83, 111, 110, 103]
          artist := some [88]
          primary_artist := none
          album := none
          genre := none
          file_path := [] } :=
  tier_monotonicity_amended
    { id := [50]
      title := [83, 111, 110, 103]
      artist := [88]
      primary_artist := none
      album := none
      genre := none
      super_genre := none }
    { id := [49]
      title := some [83, 111, 110, 103]
      artist := some [88]
      primary_artist := none
      album := none
      genre := none
      file_path := [] }
    (by decide) (by decide)

/-- Witness for `matchTrack_artist_gate` at the concrete tier-3 match of the
`abcdefg` / `abcdefh` pair. -/
theorem matchTrack_artist_gate_witness :
    ((matchTrack c8Spotify (buildLocalIndex [c8Local])).tier = some 2 ∨
      (matchTrack c8Spotify (buildLocalIndex [c8Local])).tier = some 3) ∧
      normalizeArtist (effectiveArtist c8Local) =
        (matchTrack c8Spotify (buildLocalIndex [c8Local])).normalizedSpotifyArtist :=
  matchTrack_artist_gate c8Spotify [c8Local] c8Local (by decide)

/-- Witness for `similarity_bounds`: self-similarity of the one-letter string
`a` is 100. -/
theorem similarity_bounds_witness :
    calculateSimilarity ([97] : Str) ([97] : Str) = 100 :=
  (similarity_bounds [97] [97]).2.2.1 (by decide)

/-- Witness for `core_totality`: a local track with all-null text fields
indexes to empty normalized fields. -/
theorem core_totality_witness :
    mkNormalizedLocal
        { id := []
          title := none
          artist := none
          primary_artist := none
          album := none
          genre := none
          file_path := [] } =
      { track :=
          { id := []
            title := none
            artist := none
            primary_artist := none
            album := none
            genre := none
            file_path := [] }
        title := []
        coreTitle := []
        artist := [] } :=
  core_totality.2.2.2.2.2.2.1
    { id := []
      title := none
      artist := none
      primary_artist := none
      album := none
      genre := none
      file_path := [] } rfl rfl rfl

/-! ### Character-level invariants of `normalize` (towards amended C3) -/

theorem foldChar_notUpper {n x : Nat} (h : x ∈ foldChar n) :
    ¬(65 ≤ x ∧ x ≤ 90) := by
  unfold foldChar at h
  split_ifs at h <;> simp_all <;> omega

theorem serviceNormalize_notUpper {t : Str} {x : Nat}
    (h : x ∈ serviceNormalize t) : ¬(65 ≤ x ∧ x ≤ 90) := by
  simp only [serviceNormalize, List.mem_flatten, List.mem_map] at h
  obtain ⟨_, ⟨n, _, rfl⟩, hx⟩ := h
  exact foldChar_notUpper hx

theorem stripUrlsAux_subset :
    ∀ (s : Str) (b : Bool) (prev : Option Nat) (x : Nat),
      x ∈ stripUrlsAux b prev s → x ∈ s := by
  intro s
  induction s with
  | nil => intro b prev x h; simp [stripUrlsAux] at h
  | cons c rest ih =>
    intro b prev x h
    cases b with
    | true =>
      simp only [stripUrlsAux] at h
      split_ifs at h with h1
      · rcases List.mem_cons.mp h with rfl | h2
        · exact List.mem_cons_self _ _
        · exact List.mem_cons_of_mem _ (ih false (some c) x h2)
      · exact List.mem_cons_of_mem _ (ih true prev x h)
    | false =>
      simp only [stripUrlsAux] at h
      split_ifs at h with h1
      · exact List.mem_cons_of_mem _ (ih true prev x h)
      · rcases List.mem_cons.mp h with rfl | h2
        · exact List.mem_cons_self _ _
        · exact List.mem_cons_of_mem _ (ih false (some c) x h2)

theorem cutClause_subset (kw : Str) (d : Bool) :
    ∀ (s : Str) (x : Nat), x ∈ cutClause kw d s → x ∈ s := by
  intro s
  induction s with
  | nil => intro x h; cases h
  | cons c rest ih =>
    intro x h
    simp only [cutClause] at h
    split_ifs at h
    · cases h
    · rcases List.mem_cons.mp h with rfl | h2
      · exact List.mem_cons_self _ _
      · exact List.mem_cons_of_mem _ (ih x h2)

theorem stripBpm_subset (s : Str) (x : Nat) (h : x ∈ stripBpm s) : x ∈ s := by
  simp only [stripBpm] at h
  split_ifs at h with h1
  · rw [List.mem_reverse] at h
    have h2 := (List.dropWhile_sublist (l := ((s.reverse.dropWhile isSpc).dropWhile
      isDigitC)) (p := isSpc)).subset h
    have h3 := (List.dropWhile_sublist (l := s.reverse.dropWhile isSpc)
      (p := isDigitC)).subset h2
    have h4 := (List.dropWhile_sublist (l := s.reverse) (p := isSpc)).subset h3
    exact List.mem_reverse.mp h4
  · exact h

theorem wwwAt_mem_dot {s : Str} (h : wwwAt s = true) : 46 ∈ s := by
  rcases s with _ | ⟨a, _ | ⟨b, _ | ⟨c, _ | ⟨d, _ | ⟨e, rest⟩⟩⟩⟩⟩ <;>
    simp [wwwAt] at h
  obtain ⟨⟨⟨⟨_, _⟩, _⟩, hd⟩, _⟩ := h
  subst hd
  simp

theorem stripUrlsAux_id :
    ∀ (s : Str) (prev : Option Nat), 46 ∉ s → stripUrlsAux false prev s = s := by
  intro s
  induction s with
  | nil => intro prev _; rfl
  | cons c rest ih =>
    intro prev hd
    have hw : wwwAt (c :: rest) = false := by
      rcases hb : wwwAt (c :: rest) with _ | _
      · rfl
      · exact absurd (wwwAt_mem_dot hb) hd
    simp only [stripUrlsAux, hw, Bool.and_false, Bool.false_eq_true, if_false]
    rw [ih (some c) (fun hm => hd (List.mem_cons_of_mem _ hm))]

theorem stripPunct_id {t : Str}
    (h : ∀ x ∈ t, (isWordC x || isSpc x) = true) : stripPunct t = t :=
  List.filter_eq_self.mpr h

theorem goodC_word_or_space {x : Nat} (h : goodC x) :
    (isWordC x || isSpc x) = true := by
  rcases h with ⟨hw, _⟩ | rfl
  · simp [hw]
  · simp [isSpc]

theorem goodC_ne_dot {x : Nat} (h : goodC x) : x ≠ 46 := by
  rcases h with ⟨hw, _⟩ | rfl
  · simp only [isWordC, decide_eq_true_eq] at hw
    omega
  · omega

theorem foldChar_fixed {x : Nat} (h : goodC x) : foldChar x = [x] := by
  rcases h with ⟨hw, hu⟩ | rfl
  · simp only [isWordC, decide_eq_true_eq] at hw
    have h128 : x < 128 := by omega
    unfold foldChar
    rw [if_pos h128, if_neg hu]
  · rfl

theorem serviceNormalize_id :
    ∀ t : Str, (∀ x ∈ t, goodC x) → serviceNormalize t = t := by
  intro t
  induction t with
  | nil => intro _; rfl
  | cons c rest ih =>
    intro h
    have hstep : serviceNormalize (c :: rest) = foldChar c ++ serviceNormalize rest := by
      simp [serviceNormalize]
    rw [hstep, foldChar_fixed (h c (List.mem_cons_self _ _)),
      ih (fun x hx => h x (List.mem_cons_of_mem _ hx))]
    rfl

theorem wordsAux_chars :
    ∀ (s cur : Str) (w : Str), w ∈ wordsAux s cur →
      ∀ x ∈ w, (x ∈ s ∧ isSpc x = false) ∨ x ∈ cur := by
  intro s
  induction s with
  | nil =>
    intro cur w hw x hx
    simp only [wordsAux] at hw
    split_ifs at hw
    · cases hw
    · rcases List.mem_singleton.mp hw with rfl
      exact Or.inr (List.mem_reverse.mp hx)
  | cons c rest ih =>
    intro cur w hw x hx
    simp only [wordsAux] at hw
    split_ifs at hw with h1 h2
    · rcases ih [] w hw x hx with ⟨h3, h4⟩ | h3
      · exact Or.inl ⟨List.mem_cons_of_mem _ h3, h4⟩
      · cases h3
    · rcases List.mem_cons.mp hw with rfl | h3
      · exact Or.inr (List.mem_reverse.mp hx)
      · rcases ih [] w h3 x hx with ⟨h4, h5⟩ | h4
        · exact Or.inl ⟨List.mem_cons_of_mem _ h4, h5⟩
        · cases h4
    · rcases ih (c :: cur) w hw x hx with ⟨h3, h4⟩ | h3
      · exact Or.inl ⟨List.mem_cons_of_mem _ h3, h4⟩
      · rcases List.mem_cons.mp h3 with rfl | h4
        · exact Or.inl ⟨List.mem_cons_self _ _, by simpa using h1⟩
        · exact Or.inr h4

theorem wordsAux_ne_nil :
    ∀ (s cur : Str) (w : Str), w ∈ wordsAux s cur → w ≠ [] := by
  intro s
  induction s with
  | nil =>
    intro cur w hw
    simp only [wordsAux] at hw
    split_ifs at hw with h1
    · cases hw
    · rcases List.mem_singleton.mp hw with rfl
      simpa [List.isEmpty_iff] using h1
  | cons c rest ih =>
    intro cur w hw
    simp only [wordsAux] at hw
    split_ifs at hw with h1 h2
    · exact ih [] w hw
    · rcases List.mem_cons.mp hw with rfl | h3
      · simpa [List.isEmpty_iff] using h2
      · exact ih [] w h3
    · exact ih (c :: cur) w hw

theorem joinWords_chars :
    ∀ (ws : List Str) (x : Nat), x ∈ joinWords ws →
      x = 32 ∨ ∃ w ∈ ws, x ∈ w := by
  intro ws
  induction ws with
  | nil => intro x h; cases h
  | cons w ws ih =>
    intro x h
    rcases ws with _ | ⟨v, vs⟩
    · exact Or.inr ⟨w, List.mem_singleton.mpr rfl, h⟩
    · simp only [joinWords] at h
      rcases List.mem_append.mp h with h1 | h1
      · exact Or.inr ⟨w, List.mem_cons_self _ _, h1⟩
      · rcases List.mem_cons.mp h1 with rfl | h2
        · exact Or.inl rfl
        · rcases ih x h2 with h3 | ⟨u, hu, hx⟩
          · exact Or.inl h3
          · exact Or.inr ⟨u, List.mem_cons_of_mem _ hu, hx⟩

theorem wordsAux_append :
    ∀ (w rest cur : Str), (∀ x ∈ w, isSpc x = false) →
      wordsAux (w ++ rest) cur = wordsAux rest (w.reverse ++ cur) := by
  intro w
  induction w with
  | nil => intro rest cur _; rfl
  | cons c w ih =>
    intro rest cur h
    have hc : isSpc c = false := h c (List.mem_cons_self _ _)
    show wordsAux (c :: (w ++ rest)) cur = _
    simp only [wordsAux, hc, Bool.false_eq_true, if_false]
    rw [ih rest (c :: cur) (fun x hx => h x (List.mem_cons_of_mem _ hx))]
    simp

theorem wordsOf_joinWords :
    ∀ ws : List Str, (∀ w ∈ ws, w ≠ [] ∧ ∀ x ∈ w, isSpc x = false) →
      wordsOf (joinWords ws) = ws := by
  intro ws
  induction ws with
  | nil => intro _; rfl
  | cons w ws ih =>
    intro h
    obtain ⟨hne, hsp⟩ := h w (List.mem_cons_self _ _)
    rcases ws with _ | ⟨v, vs⟩
    · show wordsOf w = [w]
      unfold wordsOf
      rw [← List.append_nil w, wordsAux_append w [] [] hsp]
      simp only [wordsAux, List.append_nil]
      rw [if_neg (by simpa [List.isEmpty_iff] using hne)]
      simp
    · show wordsOf (w ++ 32 :: joinWords (v :: vs)) = w :: v :: vs
      unfold wordsOf
      rw [wordsAux_append w _ [] hsp]
      simp only [wordsAux, isSpc, List.append_nil]
      rw [if_pos (by decide), if_neg (by simpa [List.isEmpty_iff] using hne)]
      rw [List.reverse_reverse]
      have := ih (fun u hu => h u (List.mem_cons_of_mem _ hu))
      unfold wordsOf at this
      rw [this]

theorem wordsOf_good (s : Str) (w : Str) (hw : w ∈ wordsOf s) :
    w ≠ [] ∧ ∀ x ∈ w, isSpc x = false := by
  refine ⟨wordsAux_ne_nil s [] w hw, fun x hx => ?_⟩
  rcases wordsAux_chars s [] w hw x hx with ⟨_, h⟩ | h
  · exact h
  · cases h

theorem collapseWs_idem (s : Str) : collapseWs (collapseWs s) = collapseWs s := by
  show joinWords (wordsOf (joinWords (wordsOf s))) = _
  rw [wordsOf_joinWords (wordsOf s) (fun w hw => wordsOf_good s w hw)]
  rfl

theorem normalize_chars :
    ∀ (s : Option Str) (x : Nat), x ∈ normalize s → goodC x := by
  intro s x h
  rcases s with _ | t
  · cases h
  · simp only [normalize] at h
    split_ifs at h with h0
    · cases h
    · rcases joinWords_chars _ x h with rfl | ⟨w, hw, hx⟩
      · exact Or.inr rfl
      · rcases wordsAux_chars _ [] w hw x hx with ⟨h1, h2⟩ | h1
        · rcases List.mem_filter.mp h1 with ⟨h3, h4⟩
          have h5 : isWordC x = true := by
            rcases Bool.or_eq_true_iff.mp h4 with h6 | h6
            · exact h6
            · rw [h6] at h2; cases h2
          refine Or.inl ⟨h5, ?_⟩
          have h6 := stripBpm_subset _ x h3
          have h7 := cutClause_subset kwFeaturing false _ x h6
          have h8 := cutClause_subset kwFt true _ x h7
          have h9 := cutClause_subset kwFeat true _ x h8
          have h10 := stripUrlsAux_subset _ false none x h9
          exact serviceNormalize_notUpper h10
        · cases h1

/-- C3 amended: `normalize` is idempotent on every string on which the
feat/ft/featuring-clause rules and the trailing-BPM rule do not re-trigger
after one pass (the counterexample shows these rules can fire again on
`normalize`'s own output; all other pipeline stages are always stable on
it). -/
theorem normalize_idempotent_amended (s : Option Str)
    (h1 : cutClause kwFeat true (normalize s) = normalize s)
    (h2 : cutClause kwFt true (normalize s) = normalize s)
    (h3 : cutClause kwFeaturing false (normalize s) = normalize s)
    (h4 : stripBpm (normalize s) = normalize s) :
    normalize (some (normalize s)) = normalize s := by
  have hgood : ∀ x ∈ normalize s, goodC x := fun x hx => normalize_chars s x hx
  by_cases hne : normalize s = []
  · rw [hne]
    rfl
  · have hcol : ∃ v, normalize s = collapseWs v := by
      rcases s with _ | t
      · exact absurd rfl hne
      · simp only [normalize]
        split_ifs with h0
        · exact absurd (by simp [normalize, h0]) hne
        · exact ⟨_, rfl⟩
    obtain ⟨v, hv⟩ := hcol
    have hstep : ∀ t : Str, t ≠ [] → normalize (some t) =
        collapseWs (stripPunct (stripBpm
          (cutClause kwFeaturing false (cutClause kwFt true (cutClause kwFeat true
            (stripUrls (serviceNormalize t))))))) := by
      intro t h
      simp [normalize, h]
    have hurl : stripUrls (normalize s) = normalize s :=
      stripUrlsAux_id _ none (fun hm => goodC_ne_dot (hgood 46 hm) rfl)
    rw [hstep (normalize s) hne]
    rw [serviceNormalize_id _ hgood]
    rw [hurl, h1, h2, h3, h4]
    rw [stripPunct_id (fun x hx => goodC_word_or_space (hgood x hx))]
    rw [hv, collapseWs_idem]

/-- Witness for `normalize_idempotent_amended` at the string `Hello World`,
on whose normalized form none of the strip rules re-trigger. -/
theorem normalize_idempotent_amended_witness :
    normalize (some (normalize
      (some [72, 101, 108, 108, 111, 32, 87, 111, 114, 108, 100]))) =
      normalize (some [72, 101, 108, 108, 111, 32, 87, 111, 114, 108, 100]) :=
  normalize_idempotent_amended
    (some [72, 101, 108, 108, 111, 32, 87, 111, 114, 108, 100])
    (by decide) (by decide) (by decide) (by decide)

end MakoSync
